import Mathlib

/-!
Verification of core components of the sgreen terminal multiplexer.

Shallow embedding of the Go sources:
* bytes are modelled as Nat (values 0..255 in practice);
* Go slices of bytes become List Nat; Go strings of raw input bytes
  likewise become List Nat, while Go string literals stay Lean String;
* Go int fields that can legitimately be negative (window indices,
  slice indices passed by callers) are modelled as Int;
* external effects (starting a PTY, killing a process, writing a file,
  strconv.Atoi, os.NewFile) are modelled as explicit parameters or as
  entries of an explicit action trace.
-/

namespace Sgreen

/-! ## ScrollbackBuffer (internal/ui scrollback, value model)

Mirrors the Go struct: lines is a fixed-size slice of length maxLines,
size is the number of retained lines, start the ring start index.
Byte slices are modelled by value; Go nil slices become []. -/

structure ScrollbackBuffer where
  lines : List (List Nat)
  maxLines : Nat
  size : Nat
  start : Nat
  deriving Repr, DecidableEq

/-- NewScrollbackBuffer from the source: a non-positive capacity falls
back to the default 1000, and the backing slice has maxLines entries. -/
def NewScrollbackBuffer (maxLines : Int) : ScrollbackBuffer :=
  { lines := List.replicate (if maxLines ≤ 0 then 1000 else maxLines.toNat) []
    maxLines := if maxLines ≤ 0 then 1000 else maxLines.toNat
    size := 0
    start := 0 }

/-- Append from the source: below capacity the line goes to slot size and
size grows; at capacity it overwrites slot start and start advances mod
maxLines.  The Go code stores a copy of the line; with value semantics
the copy is the value itself. -/
def ScrollbackBuffer.Append (sb : ScrollbackBuffer) (line : List Nat) : ScrollbackBuffer :=
  if sb.size < sb.maxLines then
    { sb with lines := sb.lines.set sb.size line, size := sb.size + 1 }
  else
    { sb with lines := sb.lines.set sb.start line
              start := (sb.start + 1) % sb.maxLines }

/-- GetLine from the source: out-of-range indices yield nil (modelled as
none); otherwise the line at ring position (start + index) % maxLines is
returned (the Go code returns a fresh copy; by value it is the line). -/
def ScrollbackBuffer.GetLine (sb : ScrollbackBuffer) (index : Int) : Option (List Nat) :=
  if index < 0 ∨ (sb.size : Int) ≤ index then none
  else some (sb.lines.getD ((sb.start + index.toNat) % sb.maxLines) [])

/-- Size from the source. -/
def ScrollbackBuffer.Size (sb : ScrollbackBuffer) : Nat := sb.size

/-- Folding Append over a list of lines, oldest first. -/
def appendAll (sb : ScrollbackBuffer) (ls : List (List Nat)) : ScrollbackBuffer :=
  ls.foldl ScrollbackBuffer.Append sb

/-- Abstraction of the ring: the retained lines from oldest to newest. -/
def absBuf (sb : ScrollbackBuffer) : List (List Nat) :=
  (List.range sb.size).map fun i => sb.lines.getD ((sb.start + i) % sb.maxLines) []

/-- Well-formedness of reachable buffers: the backing slice has exactly
maxLines slots, the capacity is positive, size never exceeds it, start
stays in range and is 0 until the ring first fills. -/
def sbWF (sb : ScrollbackBuffer) : Prop :=
  sb.lines.length = sb.maxLines ∧ 0 < sb.maxLines ∧ sb.size ≤ sb.maxLines ∧
    sb.start < sb.maxLines ∧ (sb.size < sb.maxLines → sb.start = 0)

theorem sbWF_new (c : Int) : sbWF (NewScrollbackBuffer c) := by
  have hml : 0 < (NewScrollbackBuffer c).maxLines := by
    show 0 < (if c ≤ 0 then 1000 else c.toNat)
    by_cases h : c ≤ 0
    · rw [if_pos h]; omega
    · rw [if_neg h]; omega
  exact ⟨by simp [NewScrollbackBuffer], hml, Nat.zero_le _, hml, fun _ => rfl⟩

theorem sbWF_append (sb : ScrollbackBuffer) (l : List Nat) (h : sbWF sb) :
    sbWF (sb.Append l) := by
  obtain ⟨hlen, hpos, hsz, hst, hst0⟩ := h
  unfold ScrollbackBuffer.Append
  by_cases hfull : sb.size < sb.maxLines
  · rw [if_pos hfull]
    exact ⟨by simp [hlen], hpos, show sb.size + 1 ≤ sb.maxLines by omega, hst,
      fun _ => hst0 hfull⟩
  · rw [if_neg hfull]
    exact ⟨by simp [hlen], hpos, show sb.size ≤ sb.maxLines from hsz, Nat.mod_lt _ hpos,
      fun hlt => absurd (show sb.size < sb.maxLines from hlt) (by omega)⟩

theorem getD_set_ne (xs : List (List Nat)) (i j : Nat) (v : List Nat) (h : i ≠ j) :
    (xs.set i v).getD j [] = xs.getD j [] := by
  simp [List.getD_eq_getElem?_getD, List.getElem?_set_ne h]

theorem getD_set_self (xs : List (List Nat)) (i : Nat) (v : List Nat) (h : i < xs.length) :
    (xs.set i v).getD i [] = v := by
  simp [List.getD_eq_getElem?_getD, List.getElem?_set_self, h]

theorem getD_map_range (n i : Nat) (f : Nat → List Nat) (h : i < n) :
    ((List.range n).map f).getD i [] = f i := by
  rw [List.getD_eq_getElem?_getD, List.getElem?_map, List.getElem?_range h]
  rfl

theorem sb_maxLines_append (sb : ScrollbackBuffer) (l : List Nat) :
    (sb.Append l).maxLines = sb.maxLines := by
  unfold ScrollbackBuffer.Append; split <;> rfl

theorem absBuf_length (sb : ScrollbackBuffer) : (absBuf sb).length = sb.size := by
  simp [absBuf]

theorem absBuf_append (sb : ScrollbackBuffer) (l : List Nat) (h : sbWF sb) :
    absBuf (sb.Append l) =
      if sb.size < sb.maxLines then absBuf sb ++ [l] else (absBuf sb).drop 1 ++ [l] := by
  obtain ⟨hlen, hpos, hsz, hst, hst0⟩ := h
  by_cases hfull : sb.size < sb.maxLines
  · have h0 : sb.start = 0 := hst0 hfull
    rw [if_pos hfull]
    unfold ScrollbackBuffer.Append
    rw [if_pos hfull]
    show (List.range (sb.size + 1)).map
        (fun i => (sb.lines.set sb.size l).getD ((sb.start + i) % sb.maxLines) []) =
      absBuf sb ++ [l]
    rw [List.range_succ, List.map_append]
    congr 1
    · apply List.map_congr_left
      intro i hi
      have hi' : i < sb.size := List.mem_range.mp hi
      have hidx : (sb.start + i) % sb.maxLines = i := by
        rw [h0, Nat.zero_add]; exact Nat.mod_eq_of_lt (lt_trans hi' hfull)
      rw [hidx]
      exact getD_set_ne sb.lines sb.size i l (by omega)
    · have hidx : (sb.start + sb.size) % sb.maxLines = sb.size := by
        rw [h0, Nat.zero_add]; exact Nat.mod_eq_of_lt hfull
      simp only [List.map_cons, List.map_nil, hidx]
      rw [getD_set_self sb.lines sb.size l (by rw [hlen]; exact hfull)]
  · rw [if_neg hfull]
    have hsize : sb.size = sb.maxLines := by omega
    unfold ScrollbackBuffer.Append
    rw [if_neg hfull]
    show (List.range sb.size).map
        (fun i => (sb.lines.set sb.start l).getD
          (((sb.start + 1) % sb.maxLines + i) % sb.maxLines) []) =
      (absBuf sb).drop 1 ++ [l]
    obtain ⟨m, hm⟩ : ∃ m, sb.maxLines = m + 1 := ⟨sb.maxLines - 1, by omega⟩
    rw [show List.range sb.size = List.range (m + 1) from by rw [hsize, hm],
      List.range_succ, List.map_append]
    congr 1
    · have habs : absBuf sb = (List.range (m + 1)).map
          (fun i => sb.lines.getD ((sb.start + i) % sb.maxLines) []) := by
        unfold absBuf; rw [hsize, hm]
      rw [habs, List.range_succ_eq_map, List.map_cons, List.drop_succ_cons, List.drop_zero,
        List.map_map]
      apply List.map_congr_left
      intro i hi
      have hi' : i < m := List.mem_range.mp hi
      have hadd : ((sb.start + 1) % sb.maxLines + i) % sb.maxLines =
          (sb.start + 1 + i) % sb.maxLines := Nat.mod_add_mod _ _ _
      have hne : sb.start ≠ (sb.start + 1 + i) % sb.maxLines := by
        by_cases hlt : sb.start + 1 + i < sb.maxLines
        · rw [Nat.mod_eq_of_lt hlt]; omega
        · rw [Nat.mod_eq_sub_mod (by omega), Nat.mod_eq_of_lt (by omega)]; omega
      simp only [Function.comp]
      rw [hadd, getD_set_ne sb.lines sb.start ((sb.start + 1 + i) % sb.maxLines) l hne]
      have : sb.start + Nat.succ i = sb.start + 1 + i := by omega
      rw [this]
    · have hadd : ((sb.start + 1) % sb.maxLines + m) % sb.maxLines =
          (sb.start + 1 + m) % sb.maxLines := Nat.mod_add_mod _ _ _
      have hidx : (sb.start + 1 + m) % sb.maxLines = sb.start := by
        have h1 : sb.start + 1 + m = sb.start + (m + 1) := by omega
        rw [h1, hm, Nat.add_mod_right, Nat.mod_eq_of_lt (by omega)]
      simp only [List.map_cons, List.map_nil, hadd, hidx]
      rw [getD_set_self sb.lines sb.start l (by rw [hlen]; omega)]

/-- Abstract effect of one Append on the retained-lines view. -/
def pushCap (m : Nat) (A : List (List Nat)) (l : List Nat) : List (List Nat) :=
  if A.length < m then A ++ [l] else A.drop 1 ++ [l]

theorem absBuf_appendAll (P : List (List Nat)) (sb : ScrollbackBuffer) (h : sbWF sb) :
    absBuf (appendAll sb P) = P.foldl (pushCap sb.maxLines) (absBuf sb) := by
  induction P generalizing sb with
  | nil => rfl
  | cons l P ih =>
    show absBuf (appendAll (sb.Append l) P) =
      P.foldl (pushCap sb.maxLines) (pushCap sb.maxLines (absBuf sb) l)
    rw [ih (sb.Append l) (sbWF_append sb l h), sb_maxLines_append]
    congr 1
    rw [absBuf_append sb l h]
    unfold pushCap
    rw [absBuf_length]

theorem sbWF_appendAll (P : List (List Nat)) (sb : ScrollbackBuffer) (h : sbWF sb) :
    sbWF (appendAll sb P) := by
  induction P generalizing sb with
  | nil => exact h
  | cons l P ih => exact ih (sb.Append l) (sbWF_append sb l h)

theorem foldl_pushCap (m : Nat) (hm : 0 < m) (P : List (List Nat)) :
    ∀ A : List (List Nat), A.length ≤ m →
      P.foldl (pushCap m) A = (A ++ P).drop (A.length + P.length - m) := by
  induction P with
  | nil =>
    intro A hA
    simp [Nat.sub_eq_zero_of_le hA]
  | cons l P ih =>
    intro A hA
    show P.foldl (pushCap m) (pushCap m A l) =
      (A ++ l :: P).drop (A.length + (P.length + 1) - m)
    by_cases hlt : A.length < m
    · rw [show pushCap m A l = A ++ [l] from by unfold pushCap; rw [if_pos hlt]]
      rw [ih (A ++ [l]) (by simp; omega)]
      have h1 : (A ++ [l]).length + P.length - m = A.length + (P.length + 1) - m := by
        simp; omega
      rw [h1, List.append_assoc, List.singleton_append]
    · have hAm : A.length = m := by omega
      rw [show pushCap m A l = A.drop 1 ++ [l] from by unfold pushCap; rw [if_neg hlt]]
      have hlen1 : (A.drop 1 ++ [l]).length = A.length - 1 + 1 := by simp
      rw [ih (A.drop 1 ++ [l]) (by rw [hlen1]; omega)]
      have h1 : (A.drop 1 ++ [l]).length + P.length - m = P.length := by
        rw [hlen1]; omega
      have h2 : A.length + (P.length + 1) - m = 1 + P.length := by omega
      have e1 : List.drop 1 (A ++ l :: P) = A.drop 1 ++ l :: P :=
        List.drop_append_of_le_length (by omega)
      have e2 : A.drop 1 ++ l :: P = A.drop 1 ++ [l] ++ P := by
        rw [List.append_assoc, List.singleton_append]
      rw [h1, h2, ← List.drop_drop, e1, e2]

theorem GetLine_absBuf (sb : ScrollbackBuffer) (i : Nat) (hi : i < sb.size) :
    sb.GetLine (i : Int) = some ((absBuf sb).getD i []) := by
  unfold ScrollbackBuffer.GetLine
  rw [if_neg (by omega)]
  have htn : ((i : Int)).toNat = i := Int.toNat_natCast i
  rw [htn]
  unfold absBuf
  rw [getD_map_range sb.size i _ hi]

theorem absBuf_new (c : Int) : absBuf (NewScrollbackBuffer c) = [] := rfl

theorem new_maxLines (c : Int) (hc : 0 < c) : (NewScrollbackBuffer c).maxLines = c.toNat := by
  show (if c ≤ 0 then 1000 else c.toNat) = c.toNat
  rw [if_neg (by omega)]

/-- C6: appending N > c lines to a ScrollbackBuffer of capacity c > 0 retains
exactly c lines, evicts the oldest N - c, and GetLine i returns the
(N - c + i)-th appended line; in particular GetLine 0 is the (N - c)-th. -/
theorem C6_scrollback_bounds (c : Int) (P : List (List Nat)) (hc : 0 < c)
    (hN : c < (P.length : Int)) :
    (appendAll (NewScrollbackBuffer c) P).Size = c.toNat ∧
    ∀ i : Nat, i < c.toNat →
      (appendAll (NewScrollbackBuffer c) P).GetLine (i : Int) =
        some (P.getD (P.length - c.toNat + i) []) := by
  have hwf0 := sbWF_new c
  have hwf := sbWF_appendAll P (NewScrollbackBuffer c) hwf0
  have hml : (NewScrollbackBuffer c).maxLines = c.toNat := new_maxLines c hc
  have habs : absBuf (appendAll (NewScrollbackBuffer c) P) = P.drop (P.length - c.toNat) := by
    rw [absBuf_appendAll P _ hwf0, hml, absBuf_new,
      foldl_pushCap c.toNat (by omega) P [] (by simp)]
    simp
  have hsize : (appendAll (NewScrollbackBuffer c) P).size = c.toNat := by
    have hl := absBuf_length (appendAll (NewScrollbackBuffer c) P)
    rw [habs] at hl
    simp at hl
    omega
  refine ⟨hsize, fun i hi => ?_⟩
  rw [GetLine_absBuf _ i (by rw [hsize]; exact hi), habs]
  congr 1
  simp [List.getD_eq_getElem?_getD, List.getElem?_drop]

/-- Witness for C6 at capacity 2 with three appended lines. -/
theorem C6_scrollback_bounds_witness :
    (appendAll (NewScrollbackBuffer 2) [[1], [2], [3]]).Size = 2 ∧
    (appendAll (NewScrollbackBuffer 2) [[1], [2], [3]]).GetLine 0 = some [2] := by
  have h := C6_scrollback_bounds 2 [[1], [2], [3]] (by decide) (by decide)
  refine ⟨by simpa using h.1, ?_⟩
  have h0 := h.2 0 (by decide)
  simpa using h0

/-! ## CommandDecoder (detachReader.Read in internal/ui/attach.go)

The Go Read method holds mutable fields (state, pending, digraph) and is
called repeatedly by io.Copy.  Each call first drains the pending buffer
as pass-through bytes; only when pending is empty does it consume one
byte from the underlying reader.  The model below linearizes that call
sequence: per consumed input byte, the pending bytes left by earlier
calls are emitted first (as the real Read does at its top), then the
byte is dispatched exactly as in the Go switch.  The flag bufTwo records
whether the caller's buffer had room for two bytes in the unrecognized-
command branch (len(p) >= 2); it only changes how the two pass-through
bytes are chunked, never their order. -/

structure DetachReader where
  state : Nat
  pending : List Nat
  digraph : List Nat
  commandChar : Nat
  literalChar : Nat
  bindings : List (Nat × String)
  deriving Repr, DecidableEq

/-- One output item of a Read call: pass-through bytes, the detach error,
or a window command error (ErrWindowCommand with Command/Window/Title). -/
inductive Ev where
  | pass (bs : List Nat)
  | detach
  | winCmd (command : String) (window : List Nat) (title : List Nat)
  deriving Repr, DecidableEq

/-- newDetachReaderWithConfig from the source (the config's command char,
literal char and custom bindings; fresh empty buffers, Normal state). -/
def newDetachReaderWithConfig (commandChar literalChar : Nat)
    (bindings : List (Nat × String)) : DetachReader :=
  { state := 0, pending := [], digraph := [],
    commandChar := commandChar, literalChar := literalChar, bindings := bindings }

/-- hexValue from the source. -/
def hexValue (b : Nat) : Int :=
  if 48 ≤ b ∧ b ≤ 57 then (b : Int) - 48
  else if 97 ≤ b ∧ b ≤ 102 then (b : Int) - 97 + 10
  else if 65 ≤ b ∧ b ≤ 70 then (b : Int) - 65 + 10
  else -1

/-- hexByte from the source. -/
def hexByte (a b : Nat) : Option Nat :=
  if hexValue a < 0 ∨ hexValue b < 0 then none
  else some (((hexValue a).toNat <<< 4) ||| (hexValue b).toNat)

/-- Lookup in the custom bindings map, keyed by the single input byte
(Go uses map[string]string with key string(b)). -/
def lookupBinding : List (Nat × String) → Nat → Option String
  | [], _ => none
  | (k, v) :: rest, b => if k = b then some v else lookupBinding rest b

/-- Dispatch of one consumed byte, mirroring the Go switch over dr.state
and b, including which cases reset state and which leave it unchanged. -/
def consume (dr : DetachReader) (bufTwo : Bool) (b : Nat) : DetachReader × List Ev :=
  if dr.state = 0 then
    if b = dr.commandChar then ({ dr with state := 1 }, [])
    else (dr, [Ev.pass [b]])
  else if dr.state = 1 then
    match lookupBinding dr.bindings b with
    | some cmd => ({ dr with state := 0 }, [Ev.winCmd cmd [] []])
    | none =>
      if b = 100 then (dr, [Ev.detach])
      else if b = dr.literalChar then ({ dr with state := 0 }, [Ev.pass [dr.commandChar]])
      else if b = 97 then ({ dr with state := 0 }, [Ev.pass [dr.commandChar]])
      else if b = dr.commandChar then (dr, [Ev.winCmd "toggle" [] []])
      else if b = 99 then (dr, [Ev.winCmd "create" [] []])
      else if b = 110 then (dr, [Ev.winCmd "next" [] []])
      else if b = 112 then (dr, [Ev.winCmd "prev" [] []])
      else if b = 107 then (dr, [Ev.winCmd "kill" [] []])
      else if b = 65 then ({ dr with state := 2 }, [])
      else if b = 91 then (dr, [Ev.winCmd "copymode" [] []])
      else if b = 93 then (dr, [Ev.winCmd "paste" [] []])
      else if b = 123 then ({ dr with state := 4 }, [])
      else if b = 125 then ({ dr with state := 5 }, [])
      else if b = 60 then ({ dr with state := 6 }, [])
      else if b = 62 then ({ dr with state := 7 }, [])
      else if b = 63 then (dr, [Ev.winCmd "help" [] []])
      else if b = 58 then (dr, [Ev.winCmd "command" [] []])
      else if b = 46 then (dr, [Ev.winCmd "redraw" [] []])
      else if b = 120 then (dr, [Ev.winCmd "lock" [] []])
      else if b = 118 then (dr, [Ev.winCmd "version" [] []])
      else if b = 22 then ({ dr with state := 8, digraph := [] }, [])
      else if b = 44 then (dr, [Ev.winCmd "license" [] []])
      else if b = 116 then (dr, [Ev.winCmd "time" [] []])
      else if b = 95 then (dr, [Ev.winCmd "blank" [] []])
      else if b = 115 then (dr, [Ev.winCmd "suspend" [] []])
      else if b = 92 then (dr, [Ev.winCmd "killall" [] []])
      else if 48 ≤ b ∧ b ≤ 57 then (dr, [Ev.winCmd "switch" [b] []])
      else if b = 32 then (dr, [Ev.winCmd "next" [] []])
      else if b = 8 ∨ b = 127 then (dr, [Ev.winCmd "prev" [] []])
      else if b = 34 then (dr, [Ev.winCmd "list" [] []])
      else if b = 39 then ({ dr with state := 3 }, [])
      else if 65 ≤ b ∧ b ≤ 90 then (dr, [Ev.winCmd "switch" [b] []])
      else if bufTwo then ({ dr with state := 0 }, [Ev.pass [dr.commandChar, b]])
      else ({ dr with state := 0, pending := dr.pending ++ [b] },
        [Ev.pass [dr.commandChar]])
  else if dr.state = 3 then
    if b = 10 ∨ b = 13 then
      ({ dr with state := 0, pending := [] }, [Ev.winCmd "switch" dr.pending []])
    else ({ dr with pending := dr.pending ++ [b] }, [])
  else if dr.state = 4 then
    if b = 10 ∨ b = 13 then
      ({ dr with state := 0, pending := [] }, [Ev.winCmd "writebuffer" [] dr.pending])
    else ({ dr with pending := dr.pending ++ [b] }, [])
  else if dr.state = 5 then
    if b = 10 ∨ b = 13 then
      ({ dr with state := 0, pending := [] }, [Ev.winCmd "readbuffer" [] dr.pending])
    else ({ dr with pending := dr.pending ++ [b] }, [])
  else if dr.state = 6 then
    if b = 10 ∨ b = 13 then
      ({ dr with state := 0, pending := [] }, [Ev.winCmd "dumpscrollback" [] dr.pending])
    else ({ dr with pending := dr.pending ++ [b] }, [])
  else if dr.state = 8 then
    if (dr.digraph ++ [b]).length < 2 then ({ dr with digraph := dr.digraph ++ [b] }, [])
    else
      match hexByte ((dr.digraph ++ [b]).getD 0 0) ((dr.digraph ++ [b]).getD 1 0) with
      | some v =>
        ({ dr with state := 0, digraph := [], pending := dr.pending ++ [v] }, [])
      | none =>
        ({ dr with state := 0, digraph := [], pending := dr.pending ++ dr.digraph ++ [b] }, [])
  else if dr.state = 7 then
    if b = 10 ∨ b = 13 then
      ({ dr with state := 0, pending := [] }, [Ev.winCmd "dumpscrollback" [] dr.pending])
    else ({ dr with pending := dr.pending ++ [b] }, [])
  else if dr.state = 2 then
    if b = 10 ∨ b = 13 then
      ({ dr with state := 0, pending := [] }, [Ev.winCmd "title" [] dr.pending])
    else ({ dr with pending := dr.pending ++ [b] }, [])
  else (dr, [])

/-- Linearized event stream of calling Read repeatedly over an input
byte sequence: before a byte is consumed, pending bytes from the
previous call are drained first, and trailing pending bytes are drained
before the end-of-input error surfaces. -/
def runReads (bufTwo : Bool) : DetachReader → List Nat → List Ev × DetachReader
  | dr, [] =>
    (if dr.pending = [] then [] else [Ev.pass dr.pending], { dr with pending := [] })
  | dr, b :: rest =>
    ((if dr.pending = [] then [] else [Ev.pass dr.pending]) ++
      (consume { dr with pending := [] } bufTwo b).2 ++
      (runReads bufTwo (consume { dr with pending := [] } bufTwo b).1 rest).1,
     (runReads bufTwo (consume { dr with pending := [] } bufTwo b).1 rest).2)

/-- Pass-through bytes of an event stream, in order. -/
def outBytes : List Ev → List Nat
  | [] => []
  | Ev.pass bs :: rest => bs ++ outBytes rest
  | Ev.detach :: rest => outBytes rest
  | Ev.winCmd _ _ _ :: rest => outBytes rest

/-- True on pass-through events only. -/
def isPass : Ev → Bool
  | Ev.pass _ => true
  | Ev.detach => false
  | Ev.winCmd _ _ _ => false

theorem dr_eta (dr : DetachReader) (h : dr.pending = []) :
    { dr with pending := [] } = dr := by
  cases dr
  simp_all

theorem outBytes_map_pass (l : List Nat) :
    outBytes (l.map fun b => Ev.pass [b]) = l := by
  induction l with
  | nil => rfl
  | cons b rest ih => simp [outBytes, ih]

/-- C9: an input sequence never containing the command byte passes
through the decoder unchanged, in order, with no Command or Detach
events, and the decoder stays in its initial Normal state. -/
theorem C9_command_free_passthrough (dr : DetachReader) (input : List Nat)
    (bufTwo : Bool) (hstate : dr.state = 0) (hpend : dr.pending = [])
    (hfree : dr.commandChar ∉ input) :
    (runReads bufTwo dr input).1 = input.map (fun b => Ev.pass [b]) ∧
      (runReads bufTwo dr input).2 = dr ∧
      outBytes (runReads bufTwo dr input).1 = input := by
  induction input generalizing dr with
  | nil =>
    simp [runReads, hpend, dr_eta dr hpend, outBytes]
  | cons b rest ih =>
    have hb : b ≠ dr.commandChar := by
      intro h
      exact hfree (by rw [h]; exact List.mem_cons_self _ _)
    have hrest : dr.commandChar ∉ rest := fun h => hfree (List.mem_cons_of_mem _ h)
    have hcons : consume { dr with pending := [] } bufTwo b = (dr, [Ev.pass [b]]) := by
      rw [dr_eta dr hpend]
      unfold consume
      rw [if_pos hstate, if_neg hb]
    obtain ⟨h1, h2, h3⟩ := ih dr hstate hpend hrest
    simp only [runReads, hpend, hcons]
    simp [h1, h2, h3, outBytes, outBytes_map_pass]

/-- Witness for C9: two ordinary bytes pass through a default-config
decoder unchanged. -/
theorem C9_command_free_passthrough_witness :
    (runReads true (newDetachReaderWithConfig 1 97 []) [104, 105]).1 =
      [Ev.pass [104], Ev.pass [105]] ∧
    (runReads true (newDetachReaderWithConfig 1 97 []) [104, 105]).2 =
      newDetachReaderWithConfig 1 97 [] := by
  have h := C9_command_free_passthrough (newDetachReaderWithConfig 1 97 [])
    [104, 105] true rfl rfl (by decide)
  exact ⟨h.1, h.2.1⟩

/-- Bytes matched by the fixed cases of the Go switch in the
SawCommandByte state (the built-in command table; the configurable
literal and command bytes and the 'd' detach key are hypotheses of
their own in C3). -/
def builtinCommandBytes : List Nat :=
  [97, 99, 110, 112, 107, 91, 93, 123, 125, 60, 62, 63, 58, 46, 120, 118, 22,
   44, 116, 95, 115, 92, 48, 49, 50, 51, 52, 53, 54, 55, 56, 57, 32, 8, 127, 34, 39,
   65, 66, 67, 68, 69, 70, 71, 72, 73, 74, 75, 76, 77, 78, 79, 80, 81, 82, 83, 84,
   85, 86, 87, 88, 89, 90]

/-- C3: a byte b matched by nothing after the command byte is re-emitted
together with the held-back command byte, in that order, with no
Command or Detach event, and the decoder returns to its initial state;
this holds both when the caller's buffer fits two bytes and when the
second byte must wait in pending for the next read. -/
theorem C3_unrecognized_combo_transparent (cc lc b : Nat)
    (binds : List (Nat × String)) (bufTwo : Bool)
    (hbind : lookupBinding binds b = none)
    (hd : b ≠ 100) (hlit : b ≠ lc) (hcmd : b ≠ cc)
    (htab : b ∉ builtinCommandBytes) :
    outBytes (runReads bufTwo (newDetachReaderWithConfig cc lc binds) [cc, b]).1 =
      [cc, b] ∧
    (∀ e ∈ (runReads bufTwo (newDetachReaderWithConfig cc lc binds) [cc, b]).1,
      isPass e = true) ∧
    (runReads bufTwo (newDetachReaderWithConfig cc lc binds) [cc, b]).2 =
      newDetachReaderWithConfig cc lc binds := by
  have hne : ∀ x ∈ builtinCommandBytes, b ≠ x := fun x hx h => htab (h ▸ hx)
  have h97 := hne 97 (by decide)
  have h99 := hne 99 (by decide)
  have h110 := hne 110 (by decide)
  have h112 := hne 112 (by decide)
  have h107 := hne 107 (by decide)
  have h65 := hne 65 (by decide)
  have h91 := hne 91 (by decide)
  have h93 := hne 93 (by decide)
  have h123 := hne 123 (by decide)
  have h125 := hne 125 (by decide)
  have h60 := hne 60 (by decide)
  have h62 := hne 62 (by decide)
  have h63 := hne 63 (by decide)
  have h58 := hne 58 (by decide)
  have h46 := hne 46 (by decide)
  have h120 := hne 120 (by decide)
  have h118 := hne 118 (by decide)
  have h22 := hne 22 (by decide)
  have h44 := hne 44 (by decide)
  have h116 := hne 116 (by decide)
  have h95 := hne 95 (by decide)
  have h115 := hne 115 (by decide)
  have h92 := hne 92 (by decide)
  have h32 := hne 32 (by decide)
  have h34 := hne 34 (by decide)
  have h39 := hne 39 (by decide)
  have hdig : ¬(48 ≤ b ∧ b ≤ 57) := by
    rintro ⟨ha, hb2⟩
    exact htab (by interval_cases b <;> decide)
  have hAZ : ¬(65 ≤ b ∧ b ≤ 90) := by
    rintro ⟨ha, hb2⟩
    exact htab (by interval_cases b <;> decide)
  have h8or : ¬(b = 8 ∨ b = 127) := by
    rintro (h | h)
    · exact hne 8 (by decide) h
    · exact hne 127 (by decide) h
  cases bufTwo <;>
    refine ⟨?_, ?_, ?_⟩ <;>
      simp [runReads, consume, newDetachReaderWithConfig, outBytes, isPass,
        hbind, hd, hlit, hcmd, h97, h99, h110, h112, h107, h65, h91, h93, h123,
        h125, h60, h62, h63, h58, h46, h120, h118, h22, h44, h116, h95, h115,
        h92, h32, h34, h39, hdig, hAZ, h8or]

/-- Witness for C3 with the default config and b = 'q' (113). -/
theorem C3_unrecognized_combo_transparent_witness :
    outBytes (runReads false (newDetachReaderWithConfig 1 97 []) [1, 113]).1 =
      [1, 113] ∧
    (runReads false (newDetachReaderWithConfig 1 97 []) [1, 113]).2 =
      newDetachReaderWithConfig 1 97 [] := by
  have h := C3_unrecognized_combo_transparent 1 97 113 [] false rfl
    (by decide) (by decide) (by decide) (by decide)
  exact ⟨h.1, h.2.2⟩

/-- C1 as the code actually behaves: feeding commandChar, 'A', 't',
newline emits 't' as a pass-through byte (leaked to the PTY by the
pending-drain at the top of Read) and a title Command whose text is
empty, instead of holding 't' back and emitting title "t". -/
theorem C1_title_input_leaks_pending :
    (runReads true (newDetachReaderWithConfig 1 97 []) [1, 65, 116, 10]).1 =
      [Ev.pass [116], Ev.winCmd "title" [] []] := by
  decide

/-! ## Flow-controlled output copy (copyWithFlowControl in attach.go)

With flow control enabled the Go loop reads a chunk, filters out XON
(0x11 = 17) and XOFF (0x13 = 19) while updating the flowStopped flag
byte by byte, and then writes the whole filtered chunk iff the flag is
clear after the scan.  Writes are modelled as succeeding (the
write-error/interrupt path is out of scope of the claims). -/

/-- Filter loop over one read chunk: final flowStopped flag and the
collected data bytes (all non-control bytes of the chunk, in order). -/
def fcScanChunk (stopped : Bool) : List Nat → Bool × List Nat
  | [] => (stopped, [])
  | b :: rest =>
    if b = 19 then fcScanChunk true rest
    else if b = 17 then fcScanChunk false rest
    else ((fcScanChunk stopped rest).1, b :: (fcScanChunk stopped rest).2)

/-- Chunk-by-chunk copy: a chunk's data reaches the sink iff the flag is
clear once the whole chunk has been scanned. -/
def fcRun (stopped : Bool) : List (List Nat) → List Nat
  | [] => []
  | c :: rest =>
    (if (fcScanChunk stopped c).1 then [] else (fcScanChunk stopped c).2) ++
      fcRun (fcScanChunk stopped c).1 rest

/-- copyWithFlowControl with flow control enabled, starting un-stopped. -/
def copyWithFlowControl (chunks : List (List Nat)) : List Nat := fcRun false chunks

/-- Flow flag after a sequence of chunks. -/
def fcFinal (st : Bool) : List (List Nat) → Bool
  | [] => st
  | c :: rest => fcFinal (fcScanChunk st c).1 rest

theorem fcScan_no_ctrl (st : Bool) (c : List Nat) :
    19 ∉ (fcScanChunk st c).2 ∧ 17 ∉ (fcScanChunk st c).2 := by
  induction c generalizing st with
  | nil => simp [fcScanChunk]
  | cons b rest ih =>
    by_cases h19 : b = 19
    · simpa [fcScanChunk, h19] using ih true
    · by_cases h17 : b = 17
      · simpa [fcScanChunk, h19, h17] using ih false
      · simp only [fcScanChunk, h19, h17, if_neg, ite_false]
        refine ⟨?_, ?_⟩
        · intro hmem
          rcases List.mem_cons.mp hmem with h | h
          · exact h19 h.symm
          · exact (ih st).1 h
        · intro hmem
          rcases List.mem_cons.mp hmem with h | h
          · exact h17 h.symm
          · exact (ih st).2 h

theorem fcRun_no_ctrl (st : Bool) (chunks : List (List Nat)) :
    19 ∉ fcRun st chunks ∧ 17 ∉ fcRun st chunks := by
  induction chunks generalizing st with
  | nil => simp [fcRun]
  | cons c rest ih =>
    have hc := fcScan_no_ctrl st c
    by_cases hst : (fcScanChunk st c).1 = true
    · simpa [fcRun, hst] using ih (fcScanChunk st c).1
    · have hst' : (fcScanChunk st c).1 = false := by
        cases h : (fcScanChunk st c).1
        · rfl
        · exact absurd h hst
      simp only [fcRun, hst', ite_false]
      constructor
      · intro hmem
        rcases List.mem_append.mp hmem with h | h
        · exact hc.1 (by simpa using h)
        · exact (ih false).1 h
      · intro hmem
        rcases List.mem_append.mp hmem with h | h
        · exact hc.2 (by simpa using h)
        · exact (ih false).2 h

theorem fcRun_append (st : Bool) (P Q : List (List Nat)) :
    fcRun st (P ++ Q) = fcRun st P ++ fcRun (fcFinal st P) Q := by
  induction P generalizing st with
  | nil => simp [fcRun, fcFinal]
  | cons c rest ih =>
    simp only [List.cons_append, fcRun, fcFinal, List.append_eq, ih, List.append_assoc]

theorem fcRun_stop_x_start_y (st : Bool) :
    fcRun st [[19], [88], [17], [89]] = [89] := by
  cases st <;> decide

/-- C2 counterexample: when the stop byte, 'X' (88), the start byte and
'Y' (89) arrive in a single read chunk, 'X' does reach the sink. -/
theorem C2_counterexample_same_chunk :
    copyWithFlowControl [[19, 88, 17, 89]] = [88, 89] ∧
      88 ∈ copyWithFlowControl [[19, 88, 17, 89]] := by decide

/-- C2 as amended: suppression is at read-chunk granularity.  The control
bytes 0x13/0x11 never reach the sink for any chunked stream; and when
the stop byte, 'X', the start byte and 'Y' arrive in separate reads, 'X'
is dropped and exactly 'Y' is appended to the sink, whatever came
before. -/
theorem C2_flow_control_chunk_granularity :
    (∀ (st : Bool) (chunks : List (List Nat)),
      19 ∉ fcRun st chunks ∧ 17 ∉ fcRun st chunks) ∧
    (∀ P : List (List Nat),
      copyWithFlowControl (P ++ [[19], [88], [17], [89]]) =
        copyWithFlowControl P ++ [89]) := by
  refine ⟨fcRun_no_ctrl, fun P => ?_⟩
  unfold copyWithFlowControl
  rw [fcRun_append, fcRun_stop_x_start_y]

/-! ## Session window management (internal/session/session.go)

Windows and sessions are modelled with the fields the window operations
read or write (ID, Number, Title, Pid and the two indices); external
effects (pty.StartWithEnv, win.Kill, persistence) appear as explicit
success parameters, and indices are Int exactly as Go int. -/

/-- windowNumberToString from the source; window ids are produced by the
code as 0..35, hence Nat. -/
def windowNumberToString (id : Nat) : String :=
  if id < 10 then toString id
  else String.singleton (Char.ofNat (65 + (id - 10)))

structure Window where
  id : Int
  number : String
  title : String
  pid : Nat
  deriving Repr, DecidableEq

/-- Placeholder for reading a Window out of range (never hit under the
proved bounds). -/
def dummyWindow : Window := { id := 0, number := "", title := "", pid := 0 }

structure Session where
  id : String
  windows : List Window
  currentWindow : Int
  lastWindow : Int
  deriving Repr, DecidableEq

inductive SessionErr where
  | noCurrentWindow
  | lastWindow
  | killFailed
  | maxWindows
  | ptyStartFailed
  deriving Repr, DecidableEq

/-- Session built by NewWithConfig: one window with ID 0, Number "0",
both indices 0. -/
def initialSession (id : String) (pid : Nat) : Session :=
  { id := id
    windows := [{ id := 0, number := "0", title := "", pid := pid }]
    currentWindow := 0
    lastWindow := 0 }

/-- Renumbering loop of KillCurrentWindow (for i, w := range s.Windows
sets w.ID = i and w.Number = windowNumberToString(i)). -/
def renumberFrom (k : Nat) : List Window → List Window
  | [] => []
  | w :: ws =>
    { w with id := (k : Int), number := windowNumberToString k } :: renumberFrom (k + 1) ws

/-- CreateWindow from the source: refuses at 36 windows, otherwise (when
the PTY start succeeds) appends a window numbered len(Windows), records
the old current index in LastWindow and selects the new window. -/
def Session.createWindow (s : Session) (ptyOk : Bool) (pid : Nat) :
    Option SessionErr × Session :=
  if 36 ≤ s.windows.length then (some .maxWindows, s)
  else if ptyOk = false then (some .ptyStartFailed, s)
  else
    (none,
     { s with
        windows := s.windows ++
          [{ id := (s.windows.length : Int)
             number := windowNumberToString s.windows.length
             title := ""
             pid := pid }]
        lastWindow := s.currentWindow
        currentWindow := (s.windows.length : Int) })

/-- KillCurrentWindow from the source: index checks, the LastWindow
refusal, the external win.Kill() (killOk; on failure it returns before
mutating), removal at CurrentWindow, renumbering, and clamping both
indices against the new length.  The third component lists the pid of
the process actually killed. -/
def Session.killCurrentWindow (s : Session) (killOk : Bool) :
    Option SessionErr × Session × List Nat :=
  if s.windows.length = 0 ∨ s.currentWindow < 0 ∨
      (s.windows.length : Int) ≤ s.currentWindow then
    (some .noCurrentWindow, s, [])
  else if s.windows.length = 1 then
    (some .lastWindow, s, [])
  else if killOk = false then
    (some .killFailed, s, [])
  else
    (none,
     { s with
        windows := renumberFrom 0 (s.windows.eraseIdx s.currentWindow.toNat)
        currentWindow :=
          if ((s.windows.eraseIdx s.currentWindow.toNat).length : Int) ≤ s.currentWindow then
            ((s.windows.eraseIdx s.currentWindow.toNat).length : Int) - 1
          else s.currentWindow
        lastWindow :=
          if ((s.windows.eraseIdx s.currentWindow.toNat).length : Int) ≤ s.lastWindow then
            ((s.windows.eraseIdx s.currentWindow.toNat).length : Int) - 1
          else s.lastWindow },
     [(s.windows.getD s.currentWindow.toNat dummyWindow).pid])

/-- C5: a session with exactly one window (CurrentWindow = 0 by the
data-model invariant) gets the LastWindow refusal, nothing is killed,
and the session is returned unchanged. -/
theorem C5_last_window_protected (s : Session) (killOk : Bool)
    (hlen : s.windows.length = 1) (hcw : s.currentWindow = 0) :
    s.killCurrentWindow killOk = (some SessionErr.lastWindow, s, []) := by
  unfold Session.killCurrentWindow
  rw [if_neg (by rw [hlen, hcw]; simp), if_pos hlen]

/-- Witness for C5 on a concrete one-window session. -/
theorem C5_last_window_protected_witness :
    (initialSession "demo" 7).killCurrentWindow true =
      (some SessionErr.lastWindow, initialSession "demo" 7, []) :=
  C5_last_window_protected (initialSession "demo" 7) true rfl rfl

inductive WinOp where
  | create (ptyOk : Bool) (pid : Nat)
  | kill (killOk : Bool)
  deriving Repr, DecidableEq

/-- State effect of one call (CreateWindow or KillCurrentWindow),
dropping the returned window/error. -/
def applyWinOp (s : Session) : WinOp → Session
  | .create ptyOk pid => (s.createWindow ptyOk pid).2
  | .kill killOk => (s.killCurrentWindow killOk).2.1

def applyWinOps (s : Session) : List WinOp → Session
  | [] => s
  | op :: rest => applyWinOps (applyWinOp s op) rest

/-- Dense numbering invariant: window i has ID i and Number rendered by
the 0-9/A-Z scheme, and both indices lie in [0, window count). -/
def goodSession (s : Session) : Prop :=
  (∀ i, i < s.windows.length →
    (s.windows.getD i dummyWindow).id = (i : Int) ∧
    (s.windows.getD i dummyWindow).number = windowNumberToString i) ∧
  0 ≤ s.currentWindow ∧ s.currentWindow < (s.windows.length : Int) ∧
  0 ≤ s.lastWindow ∧ s.lastWindow < (s.windows.length : Int)

theorem getD_append_left {α : Type} (xs ys : List α) (i : Nat) (d : α)
    (h : i < xs.length) : (xs ++ ys).getD i d = xs.getD i d := by
  simp [List.getD_eq_getElem?_getD, List.getElem?_append, h]

theorem getD_concat_length {α : Type} (xs : List α) (a d : α) :
    (xs ++ [a]).getD xs.length d = a := by
  simp [List.getD_eq_getElem?_getD, List.getElem?_concat_length]

theorem renumberFrom_length (k : Nat) (ws : List Window) :
    (renumberFrom k ws).length = ws.length := by
  induction ws generalizing k with
  | nil => rfl
  | cons w ws ih => simp [renumberFrom, ih]

theorem renumberFrom_getD (ws : List Window) (k i : Nat) (h : i < ws.length) :
    (renumberFrom k ws).getD i dummyWindow =
      { ws.getD i dummyWindow with
          id := ((k + i : Nat) : Int), number := windowNumberToString (k + i) } := by
  induction ws generalizing k i with
  | nil => simp at h
  | cons w ws ih =>
    cases i with
    | zero => simp [renumberFrom]
    | succ i =>
      have h' : i < ws.length := by simpa using h
      simp only [renumberFrom, List.getD_cons_succ]
      rw [ih k.succ i h']
      have e : k.succ + i = k + (i + 1) := by omega
      rw [e]

theorem goodSession_createWindow (s : Session) (ptyOk : Bool) (pid : Nat)
    (h : goodSession s) : goodSession (s.createWindow ptyOk pid).2 := by
  obtain ⟨hw, hcw0, hcw1, hlw0, hlw1⟩ := h
  unfold Session.createWindow
  by_cases h36 : 36 ≤ s.windows.length
  · rw [if_pos h36]; exact ⟨hw, hcw0, hcw1, hlw0, hlw1⟩
  · rw [if_neg h36]
    by_cases hp : ptyOk = false
    · rw [if_pos hp]; exact ⟨hw, hcw0, hcw1, hlw0, hlw1⟩
    · rw [if_neg hp]
      unfold goodSession
      dsimp only
      refine ⟨?_, by omega, ?_, hcw0, ?_⟩
      · intro i hi
        rw [List.length_append, List.length_cons, List.length_nil] at hi
        by_cases hilt : i < s.windows.length
        · rw [getD_append_left _ _ _ _ hilt]
          exact hw i hilt
        · have he : i = s.windows.length := by omega
          subst he
          rw [getD_concat_length]
          exact ⟨rfl, rfl⟩
      · rw [List.length_append, List.length_cons, List.length_nil]
        omega
      · rw [List.length_append, List.length_cons, List.length_nil]
        omega

theorem goodSession_killCurrentWindow (s : Session) (killOk : Bool)
    (h : goodSession s) : goodSession (s.killCurrentWindow killOk).2.1 := by
  obtain ⟨hw, hcw0, hcw1, hlw0, hlw1⟩ := h
  unfold Session.killCurrentWindow
  by_cases h1 : s.windows.length = 0 ∨ s.currentWindow < 0 ∨
      (s.windows.length : Int) ≤ s.currentWindow
  · rw [if_pos h1]; exact ⟨hw, hcw0, hcw1, hlw0, hlw1⟩
  · rw [if_neg h1]
    by_cases h2 : s.windows.length = 1
    · rw [if_pos h2]; exact ⟨hw, hcw0, hcw1, hlw0, hlw1⟩
    · rw [if_neg h2]
      by_cases h3 : killOk = false
      · rw [if_pos h3]; exact ⟨hw, hcw0, hcw1, hlw0, hlw1⟩
      · rw [if_neg h3]
        push_neg at h1
        have hlen2 : 2 ≤ s.windows.length := by omega
        have htn : s.currentWindow.toNat < s.windows.length := by omega
        have herase : (s.windows.eraseIdx s.currentWindow.toNat).length =
            s.windows.length - 1 := by
          rw [List.length_eraseIdx]
          simp [htn]
        unfold goodSession
        dsimp only
        refine ⟨?_, ?_, ?_, ?_, ?_⟩
        · intro i hi
          rw [renumberFrom_length] at hi
          rw [renumberFrom_getD _ 0 i hi]
          exact ⟨by simp, by simp⟩
        · rw [herase]
          by_cases hc : ((s.windows.length - 1 : Nat) : Int) ≤ s.currentWindow
          · rw [if_pos hc]; omega
          · rw [if_neg hc]; exact hcw0
        · rw [renumberFrom_length, herase]
          by_cases hc : ((s.windows.length - 1 : Nat) : Int) ≤ s.currentWindow
          · rw [if_pos hc]; omega
          · rw [if_neg hc]; omega
        · rw [herase]
          by_cases hc : ((s.windows.length - 1 : Nat) : Int) ≤ s.lastWindow
          · rw [if_pos hc]; omega
          · rw [if_neg hc]; exact hlw0
        · rw [renumberFrom_length, herase]
          by_cases hc : ((s.windows.length - 1 : Nat) : Int) ≤ s.lastWindow
          · rw [if_pos hc]; omega
          · rw [if_neg hc]; omega

theorem goodSession_initial (id : String) (pid : Nat) :
    goodSession (initialSession id pid) := by
  refine ⟨?_, by simp [initialSession], by simp [initialSession],
    by simp [initialSession], by simp [initialSession]⟩
  intro i hi
  have hz : i = 0 := by
    simp [initialSession] at hi
    omega
  subst hz
  exact ⟨rfl, show ("0" : String) = windowNumberToString 0 by decide⟩

/-- C7: after any sequence of CreateWindow and KillCurrentWindow calls
(each succeeding or refusing as the code specifies) on a fresh session,
the k remaining windows carry IDs exactly 0..k-1 in list order, Numbers
rendered through the 0-9/A-Z scheme, and CurrentWindow and LastWindow
both lie in [0, k). -/
theorem C7_window_numbering_invariant (id : String) (pid : Nat) (ops : List WinOp) :
    goodSession (applyWinOps (initialSession id pid) ops) := by
  have main : ∀ (ops : List WinOp) (s : Session), goodSession s →
      goodSession (applyWinOps s ops) := by
    intro ops
    induction ops with
    | nil => exact fun s hs => hs
    | cons op rest ih =>
      intro s hs
      refine ih (applyWinOp s op) ?_
      cases op with
      | create ptyOk pid2 => exact goodSession_createWindow s ptyOk pid2 hs
      | kill killOk => exact goodSession_killCurrentWindow s killOk hs
  exact main ops _ (goodSession_initial id pid)

/-! ## Session registry creation (NewWithConfig in session.go)

The process-wide in-memory map sessions[id] and the on-disk directory
of <id>.json files are modelled as association lists with unique keys;
pty.StartWithEnv and the save() write are external effects represented
by success parameters.  On save failure the code removes the map entry
it just added (restoring the original map, since the id was absent) and
the on-disk target file is untouched (the temp-file write failed before
the rename). -/

/-- isValidSessionChar from the source. -/
def isValidSessionChar (c : Char) : Bool :=
  decide ((97 ≤ c.toNat ∧ c.toNat ≤ 122) ∨ (65 ≤ c.toNat ∧ c.toNat ≤ 90) ∨
    (48 ≤ c.toNat ∧ c.toNat ≤ 57) ∨ c.toNat = 45 ∨ c.toNat = 95)

def lookupAssoc {α : Type} : List (String × α) → String → Option α
  | [], _ => none
  | (k, v) :: rest, key => if k = key then some v else lookupAssoc rest key

def setAssoc {α : Type} : List (String × α) → String → α → List (String × α)
  | [], key, v => [(key, v)]
  | (k, w) :: rest, key, v =>
    if k = key then (key, v) :: rest else (k, w) :: setAssoc rest key v

structure Registry where
  mem : List (String × Session)
  disk : List (String × Session)
  deriving Repr, DecidableEq

inductive CreateErr where
  | emptyName
  | invalidName
  | alreadyExists
  | ptyStartFailed
  | saveFailed
  deriving Repr, DecidableEq

/-- NewWithConfig from the source: name validation, collision check
against the in-memory map only, PTY start, construction of the first
window and session, registration in memory, then atomic persistence
(which overwrites any existing <id>.json). -/
def NewWithConfig (reg : Registry) (id : String) (pid : Nat)
    (ptyOk saveOk : Bool) : Except CreateErr Session × Registry :=
  if id = "" then (.error .emptyName, reg)
  else if (id.data.all isValidSessionChar) = false then (.error .invalidName, reg)
  else if (lookupAssoc reg.mem id).isSome then (.error .alreadyExists, reg)
  else if ptyOk = false then (.error .ptyStartFailed, reg)
  else if saveOk = false then (.error .saveFailed, reg)
  else
    (.ok (initialSession id pid),
     { mem := setAssoc reg.mem id (initialSession id pid)
       disk := setAssoc reg.disk id (initialSession id pid) })

/-- C4 counterexample: an id recorded only on disk does not collide;
creation succeeds and the on-disk record is replaced by the new
session, so the existing record is not left unchanged. -/
theorem C4_counterexample_disk_only_id :
    (NewWithConfig { mem := [], disk := [("s", initialSession "s" 7)] }
        "s" 8 true true).1 = .ok (initialSession "s" 8) ∧
    lookupAssoc (NewWithConfig { mem := [], disk := [("s", initialSession "s" 7)] }
        "s" 8 true true).2.disk "s" = some (initialSession "s" 8) ∧
    initialSession "s" 8 ≠ initialSession "s" 7 :=
  ⟨by rfl, by rfl, by decide⟩

/-- C4 as amended: the collision check consults the in-memory index
only.  An id in the in-memory index makes creation fail with
AlreadyExists, leaving index and disk untouched; an id with at most an
on-disk record does not collide, and creation registers and persists
the new session, overwriting any on-disk record of that id. -/
theorem C4_create_collision_memory_only (reg : Registry) (id : String) (pid : Nat)
    (ptyOk saveOk : Bool) :
    ((lookupAssoc reg.mem id).isSome = true → id ≠ "" →
      id.data.all isValidSessionChar = true →
      NewWithConfig reg id pid ptyOk saveOk = (.error .alreadyExists, reg)) ∧
    (lookupAssoc reg.mem id = none → id ≠ "" →
      id.data.all isValidSessionChar = true → ptyOk = true → saveOk = true →
      NewWithConfig reg id pid ptyOk saveOk =
        (.ok (initialSession id pid),
         { mem := setAssoc reg.mem id (initialSession id pid)
           disk := setAssoc reg.disk id (initialSession id pid) })) := by
  constructor
  · intro hsome hne hval
    unfold NewWithConfig
    rw [if_neg hne, if_neg (by simp [hval]), if_pos hsome]
  · intro hnone hne hval hp hs
    unfold NewWithConfig
    rw [if_neg hne, if_neg (by simp [hval]), if_neg (by simp [hnone]),
      if_neg (by simp [hp]), if_neg (by simp [hs])]

/-- Witness for C4's amended statement: in-memory collision refused and
registry unchanged. -/
theorem C4_create_collision_memory_only_witness :
    NewWithConfig { mem := [("s", initialSession "s" 7)]
                    disk := [("s", initialSession "s" 7)] } "s" 8 true true =
      (.error .alreadyExists,
       { mem := [("s", initialSession "s" 7)]
         disk := [("s", initialSession "s" 7)] }) :=
  (C4_create_collision_memory_only
    { mem := [("s", initialSession "s" 7)], disk := [("s", initialSession "s" 7)] }
    "s" 8 true true).1 (by decide) (by decide) (by decide)

/-! ## Detach keeper child process (runDetachKeeperIfRequested, main.go)

The child's descriptor operations are modelled as an explicit action
trace; strconv.Atoi and os.NewFile are external parameters.  select {}
with no cases is the indefinite block holding the inherited master
descriptor. -/

inductive KAction where
  | writeBytes (fd : Int) (data : List Nat)
  | closeFd (fd : Int)
  | holdForever (fd : Int)
  deriving Repr, DecidableEq

structure KeeperEnv where
  detachKeeper : String
  holdFD : String
  readyFD : String
  deriving Repr, DecidableEq

/-- Bytes of the readiness message the child writes: "ready\n". -/
def readyMessage : List Nat := [114, 101, 97, 100, 121, 10]

/-- runDetachKeeperIfRequested from the source: marker check, hold-fd
parse and positivity check, best-effort readiness write and close, then
the indefinite block while holding the master descriptor. -/
def runDetachKeeperIfRequested (env : KeeperEnv) (atoi : String → Option Int)
    (newFileOk : Int → Bool) : Bool × List KAction :=
  if env.detachKeeper ≠ "1" then (false, [])
  else
    match atoi env.holdFD with
    | none => (true, [])
    | some fd =>
      if fd ≤ 0 then (true, [])
      else
        (true,
          (match atoi env.readyFD with
           | none => []
           | some rfd =>
             if 0 < rfd ∧ newFileOk rfd then
               [KAction.writeBytes rfd readyMessage, KAction.closeFd rfd]
             else []) ++
          (if newFileOk fd then [KAction.holdForever fd] else []))

def keeperDemoEnv : KeeperEnv :=
  { detachKeeper := "1", holdFD := "3", readyFD := "4" }

def keeperDemoAtoi : String → Option Int :=
  fun s => if s = "3" then some 3 else if s = "4" then some 4 else none

/-- C8 counterexample: with the marker set and valid descriptors the
child performs exactly one readiness write — of the 6-byte message
"ready\n", not of a single byte — before closing and blocking. -/
theorem C8_counterexample_ready_is_six_bytes :
    (runDetachKeeperIfRequested keeperDemoEnv keeperDemoAtoi (fun _ => true)).2 =
      [KAction.writeBytes 4 readyMessage, KAction.closeFd 4, KAction.holdForever 3] ∧
    (∀ fd d, KAction.writeBytes fd d ∈
        (runDetachKeeperIfRequested keeperDemoEnv keeperDemoAtoi (fun _ => true)).2 →
      d.length = 6) := by
  refine ⟨by decide, ?_⟩
  intro fd d hmem
  rw [show (runDetachKeeperIfRequested keeperDemoEnv keeperDemoAtoi (fun _ => true)).2 =
      [KAction.writeBytes 4 readyMessage, KAction.closeFd 4, KAction.holdForever 3]
    from by decide] at hmem
  simp at hmem
  obtain ⟨-, hd⟩ := hmem
  rw [hd]
  decide

/-- C8 as amended: when the marker is set, the hold descriptor parses
positive and opens, and a readiness descriptor parses positive and
opens, the child writes exactly one readiness message (the 6-byte
string "ready\n") to the signaling descriptor, then closes it, then
enters the indefinite block holding the master descriptor. -/
theorem C8_keeper_ready_then_hold (env : KeeperEnv) (atoi : String → Option Int)
    (newFileOk : Int → Bool) (f r : Int)
    (hmark : env.detachKeeper = "1")
    (hf : atoi env.holdFD = some f) (hfpos : 0 < f) (hfok : newFileOk f = true)
    (hr : atoi env.readyFD = some r) (hrpos : 0 < r) (hrok : newFileOk r = true) :
    runDetachKeeperIfRequested env atoi newFileOk =
      (true, [KAction.writeBytes r readyMessage, KAction.closeFd r,
              KAction.holdForever f]) := by
  unfold runDetachKeeperIfRequested
  rw [if_neg (by simp [hmark]), hf, hr]
  simp [hfok, hrok, hrpos, hfpos, (by omega : ¬ f ≤ 0)]

/-- Witness for C8's amended statement on the demo environment. -/
theorem C8_keeper_ready_then_hold_witness :
    runDetachKeeperIfRequested keeperDemoEnv keeperDemoAtoi (fun _ => true) =
      (true, [KAction.writeBytes 4 readyMessage, KAction.closeFd 4,
              KAction.holdForever 3]) :=
  C8_keeper_ready_then_hold keeperDemoEnv keeperDemoAtoi (fun _ => true) 3 4
    rfl (by decide) (by decide) rfl (by decide) (by decide) rfl

/-! ## GetLine returns a fresh copy (heap-instrumented scrollback)

To state the aliasing half of C10 — the caller cannot mutate the buffer
through the slice GetLine returns — byte slices are modelled as
references into an allocation heap; make([]byte, n) plus copy is a
fresh allocation.  The ring fields mirror the Go struct. -/

structure Heap where
  cells : List (List Nat)
  deriving Repr, DecidableEq

def Heap.read (h : Heap) (r : Nat) : List Nat := h.cells.getD r []

def Heap.write (h : Heap) (r : Nat) (v : List Nat) : Heap := { cells := h.cells.set r v }

structure HScrollback where
  lines : List Nat
  maxLines : Nat
  size : Nat
  start : Nat
  deriving Repr, DecidableEq

/-- GetLine from the source over the heap model: the bounds check
returns nil; otherwise the stored slice at ring position
(start + index) % maxLines is read, a fresh slice of the same contents
is allocated, and its reference is returned. -/
def hGetLine (h : Heap) (sb : HScrollback) (index : Int) : Option Nat × Heap :=
  if index < 0 ∨ (sb.size : Int) ≤ index then (none, h)
  else
    (some h.cells.length,
     { cells := h.cells ++
        [h.read (sb.lines.getD ((sb.start + index.toNat) % sb.maxLines) 0)] })

/-- Well-formed heap/buffer pair: stored references are allocated and
the ring fields are in range. -/
def hWF (h : Heap) (sb : HScrollback) : Prop :=
  (∀ r ∈ sb.lines, r < h.cells.length) ∧ sb.lines.length = sb.maxLines ∧
    sb.size ≤ sb.maxLines ∧ 0 < sb.maxLines

/-- C10: GetLine returns nil (none) for every out-of-range index; for an
in-range index it returns a fresh reference whose contents equal the
stored line, and writing any value through that reference leaves every
slice stored in the buffer unchanged. -/
theorem C10_getline_nil_or_fresh_copy (h : Heap) (sb : HScrollback) (index : Int) :
    ((index < 0 ∨ (sb.size : Int) ≤ index) → hGetLine h sb index = (none, h)) ∧
    (hWF h sb → 0 ≤ index → index < (sb.size : Int) →
      ∃ rf h', hGetLine h sb index = (some rf, h') ∧
        h'.read rf = h.read (sb.lines.getD ((sb.start + index.toNat) % sb.maxLines) 0) ∧
        (∀ v, ∀ r0 ∈ sb.lines, (h'.write rf v).read r0 = h.read r0)) := by
  constructor
  · intro hout
    unfold hGetLine
    rw [if_pos hout]
  · intro hwf hlo hhi
    obtain ⟨hrefs, hlen, hsz, hpos⟩ := hwf
    refine ⟨h.cells.length,
      { cells := h.cells ++
          [h.read (sb.lines.getD ((sb.start + index.toNat) % sb.maxLines) 0)] },
      ?_, ?_, ?_⟩
    · unfold hGetLine
      rw [if_neg (by omega)]
    · simp only [Heap.read]
      exact getD_concat_length _ _ _
    · intro v r0 hr0mem
      have hr0 : r0 < h.cells.length := hrefs r0 hr0mem
      simp only [Heap.write, Heap.read]
      rw [getD_set_ne _ _ _ _ (by omega)]
      exact getD_append_left _ _ _ _ hr0

/-- Witness for C10: the out-of-range and in-range cases on a concrete
one-line buffer. -/
theorem C10_getline_nil_or_fresh_copy_witness :
    hGetLine { cells := [[5, 6]] } { lines := [0], maxLines := 1, size := 1, start := 0 } 5 =
      (none, { cells := [[5, 6]] }) ∧
    (∃ rf h',
      hGetLine { cells := [[5, 6]] }
          { lines := [0], maxLines := 1, size := 1, start := 0 } 0 = (some rf, h') ∧
      h'.read rf = Heap.read { cells := [[5, 6]] }
        (List.getD [0] ((0 + (0 : Int).toNat) % 1) 0) ∧
      (∀ v, ∀ r0 ∈ ([0] : List Nat),
        (h'.write rf v).read r0 = Heap.read { cells := [[5, 6]] } r0)) :=
  ⟨(C10_getline_nil_or_fresh_copy { cells := [[5, 6]] }
      { lines := [0], maxLines := 1, size := 1, start := 0 } 5).1 (by decide),
   (C10_getline_nil_or_fresh_copy { cells := [[5, 6]] }
      { lines := [0], maxLines := 1, size := 1, start := 0 } 0).2
     (by refine ⟨?_, rfl, by decide, by decide⟩
         intro r hr
         simp at hr
         simp [hr]) (by decide) (by decide)⟩

end Sgreen
